import Mathlib

/-
Verification of the fetch / sanitize / format pipeline of the library
lookup client (src/library.py).  Strings are modelled as lists of
characters; the regular expressions of the source are modelled by
explicit leftmost-search functions; the record dictionaries are
modelled as association lists from key strings to lists of values.
-/

set_option maxRecDepth 10000

namespace Box

/-- The character class [0-9Xx] that ends the 18-character id pattern. -/
def isIdCheckChar (c : Char) : Bool :=
  c.isDigit || c = 'X' || c = 'x'

/-- The character class [0-9A-Za-z] used by the no-match branch of
_mask_id_number. -/
def isAlnumChar (c : Char) : Bool :=
  c.isDigit || c.isAlpha

/-- The word class of the fullmatch checks of _mask_id_number; on the
characters that can occur in a matched core (decimal digits, X, x) it
coincides with the regex class. -/
def isWordChar (c : Char) : Bool :=
  c.isDigit || c.isAlpha || c = '_'

/-- The no-match branch of _mask_phone: every digit character is
replaced with a star, everything else is kept. -/
def starDigits (s : List Char) : List Char :=
  s.map (fun c => if c.isDigit then '*' else c)

/-- The no-match branch of _mask_id_number: every alphanumeric
character is replaced with a star, everything else is kept. -/
def starAlnum (s : List Char) : List Char :=
  s.map (fun c => if isAlnumChar c then '*' else c)

/-- win11 s i holds when eleven consecutive digit characters start at
index i of s. -/
def win11 (s : List Char) (i : Nat) : Bool :=
  decide (i + 11 ≤ s.length) && ((s.drop i).take 11).all Char.isDigit

/-- The search of _mask_phone: index of the leftmost position at which
eleven consecutive digits start, none when no position qualifies. -/
def searchRun11 : List Char → Option Nat
  | [] => none
  | c :: cs =>
    if win11 (c :: cs) 0 then some 0
    else (searchRun11 cs).map (fun i => i + 1)

def fourStars : List Char := ['*', '*', '*', '*']

/-- _mask_phone from src/library.py: search the leftmost run of eleven
digits; when found, rewrite that run keeping its first three and last
four digits with four stars between, splicing the untouched text back
around it; otherwise star every digit of the whole string. -/
def maskPhone (s : List Char) : List Char :=
  match searchRun11 s with
  | none => starDigits s
  | some i =>
    let digits := (s.drop i).take 11
    let masked := digits.take 3 ++ fourStars ++ digits.drop 7
    s.take i ++ masked ++ s.drop (i + 11)

/-- The first alternative of the id pattern at the head of s:
seventeen digits followed by one digit or X or x. -/
def match18 (s : List Char) : Bool :=
  (s.take 17).all Char.isDigit &&
  (match s.drop 17 with
   | c :: _ => isIdCheckChar c
   | [] => false)

/-- The second alternative of the id pattern at the head of s: fifteen
digits. -/
def match15 (s : List Char) : Bool :=
  decide (15 ≤ s.length) && (s.take 15).all Char.isDigit

/-- The search of _mask_id_number: at each position, leftmost first,
try the 18-character alternative and then the 15-digit alternative;
return the start index and the match length. -/
def searchId : List Char → Option (Nat × Nat)
  | [] => none
  | c :: cs =>
    if match18 (c :: cs) then some (0, 18)
    else if match15 (c :: cs) then some (0, 15)
    else (searchId cs).map (fun p => (p.1 + 1, p.2))

/-- The fullmatch test of the 18-character branch: fourteen digits then
four word characters, eighteen characters in all. -/
def fullmatch18 (s : List Char) : Bool :=
  decide (s.length = 18) && (s.take 14).all Char.isDigit &&
    (s.drop 14).all isWordChar

/-- The fullmatch test of the 15-digit branch: eleven digits then four
word characters, fifteen characters in all. -/
def fullmatch15 (s : List Char) : Bool :=
  decide (s.length = 15) && (s.take 11).all Char.isDigit &&
    (s.drop 11).all isWordChar

/-- _mask_id_number from src/library.py: search the leftmost 18 or 15
match; rewrite the matched core according to which fullmatch succeeds
(first six kept, eight stars, last four for the 18 branch; first six
kept, six stars, last four for the 15 branch; the defensive fallback
keeps first three and last two when longer than five, otherwise stars
the whole core), splicing the surrounding text back; with no match,
star every alphanumeric character. -/
def maskIdNumber (s : List Char) : List Char :=
  match searchId s with
  | none => starAlnum s
  | some (i, len) =>
    let core := (s.drop i).take len
    let masked :=
      if fullmatch18 core then
        core.take 6 ++ List.replicate 8 '*' ++ core.drop 14
      else if fullmatch15 core then
        core.take 6 ++ List.replicate 6 '*' ++ core.drop 11
      else if 5 < core.length then
        core.take 3 ++ List.replicate (core.length - 5) '*' ++
          core.drop (core.length - 2)
      else
        List.replicate core.length '*'
    s.take i ++ masked ++ s.drop (i + len)

/-- String version of the phone mask. -/
def maskPhoneS (s : String) : String := ⟨maskPhone s.data⟩

/-- String version of the id mask. -/
def maskIdNumberS (s : String) : String := ⟨maskIdNumber s.data⟩

/-- A record as returned by the remote service or produced by the
sanitizer: an association list from key strings to value lists. -/
abbrev Record := List (String × List String)

/-- Dictionary lookup; a missing key reads as the empty list, matching
the falsiness test the source applies to data.get(key). -/
def dget (d : Record) (k : String) : List String :=
  match d with
  | [] => []
  | (k₁, v) :: rest => if k₁ = k then v else dget rest k

/-- FIELD_LABELS from src/library.py. -/
def FIELD_LABELS : List (String × String) :=
  [("names", "姓名"), ("nicknames", "昵称"), ("phone_numbers", "号码"),
   ("id_numbers", "身份证"), ("wb_numbers", "微博"), ("passwords", "密码"),
   ("emails", "邮箱"), ("addresses", "地址")]

/-- DEFAULT_FIELD_ORDER from src/library.py: the keys of FIELD_LABELS
in declaration order. -/
def DEFAULT_FIELD_ORDER : List String := FIELD_LABELS.map Prod.fst

/-- FIELD_LABELS.get(key): the display label of a key, when any. -/
def labelOf (k : String) : Option String :=
  (FIELD_LABELS.find? (fun p => p.1 == k)).map Prod.snd

/-- The body of the loop of _sanitize for one key: skip an absent or
empty value list, mask phone or id values when the flag is on, and
copy every other value list unchanged. -/
def sanitizeEntry (desensitize : Bool) (data : Record) (k : String) :
    Option (String × List String) :=
  if dget data k = [] then none
  else if k = "phone_numbers" ∧ desensitize then
    some (k, (dget data k).map maskPhoneS)
  else if k = "id_numbers" ∧ desensitize then
    some (k, (dget data k).map maskIdNumberS)
  else some (k, dget data k)

/-- _sanitize from src/library.py: walk DEFAULT_FIELD_ORDER and build
the output record in that order. -/
def sanitize (desensitize : Bool) (data : Record) : Record :=
  DEFAULT_FIELD_ORDER.filterMap (sanitizeEntry desensitize data)

/-- format_display from src/library.py: walk DEFAULT_FIELD_ORDER; for
each key with a label and a nonempty value list emit one line joining
the values with a bar separator after the label and fullwidth colon. -/
def format_display (data : Record) : List String :=
  DEFAULT_FIELD_ORDER.filterMap (fun k =>
    match labelOf k with
    | none => none
    | some label =>
      if dget data k = [] then none
      else some (label ++ "：" ++ String.intercalate " | " (dget data k)))

/-- Outcome of parsing the response body in _request. -/
inductive BodyOutcome where
  | parseError : BodyOutcome
  | parsed : Option Record → BodyOutcome

/-- Behaviour of one HTTP round trip as observed by _request: either
the transport raised, or a status code arrived with a body. -/
inductive HttpOutcome where
  | transportError : HttpOutcome
  | response : Nat → BodyOutcome → HttpOutcome

/-- _request from src/library.py over the outcome model: none on a
transport exception, a non-200 status, an unparsable body, or a
missing or empty data field; otherwise the data field. -/
def requestResult (r : HttpOutcome) : Option Record :=
  match r with
  | .transportError => none
  | .response status body =>
    if status ≠ 200 then none
    else
      match body with
      | .parseError => none
      | .parsed none => none
      | .parsed (some d) => if d = [] then none else some d

/-- fetch from src/library.py: request, then sanitize on success. -/
def fetch (desensitize : Bool) (r : HttpOutcome) : Option Record :=
  match requestResult r with
  | none => none
  | some raw => some (sanitize desensitize raw)

/-- A maximal run of exactly eleven digits starting at index i, as the
spec words it: eleven digits neither preceded nor followed by a digit. -/
def maximalRun11At (s : List Char) (i : Nat) : Bool :=
  win11 s i &&
  (decide (i = 0) || !(s.getD (i - 1) ' ').isDigit) &&
  (decide (s.length = i + 11) || !(s.getD (i + 11) ' ').isDigit)

/-- Whether some maximal run of exactly eleven digits occurs in s. -/
def hasMaximalRun11 (s : List Char) : Bool :=
  (List.range s.length).any (fun i => maximalRun11At s i)

/-- The record of the claim about the masking-off case, written from
the spec words: the raw record with only empty or absent keys removed. -/
def filteredRaw (raw : Record) : Record :=
  raw.filter (fun p => !p.2.isEmpty)

/-- The record the sanitizer actually produces with masking off: keys
of the canonical order whose raw values are nonempty, in canonical
order, with the raw values. -/
def filteredCanonical (raw : Record) : Record :=
  DEFAULT_FIELD_ORDER.filterMap (fun k =>
    if dget raw k = [] then none else some (k, dget raw k))

/-- The formatter as the spec words it: keys in canonical order, each
present key with a nonempty value list and a registered label yields
one line of label, fullwidth colon, and the bar-joined values. -/
def formatDisplaySpec (data : Record) : List String :=
  DEFAULT_FIELD_ORDER.filterMap (fun k =>
    if dget data k = [] then none
    else
      match labelOf k with
      | none => none
      | some label =>
        some (label ++ "：" ++ String.intercalate " | " (dget data k)))

/-
Helper lemmas about the phone search.
-/

theorem win11_cons (c : Char) (cs : List Char) (j : Nat) :
    win11 (c :: cs) (j + 1) = win11 cs j := by
  unfold win11
  simp only [List.drop_succ_cons, List.length_cons]
  congr 1
  simp only [decide_eq_decide]
  omega

theorem searchRun11_sound :
    ∀ (s : List Char) (i : Nat), searchRun11 s = some i → win11 s i = true := by
  intro s
  induction s with
  | nil => intro i h; simp [searchRun11] at h
  | cons c cs ih =>
    intro i h
    by_cases h0 : win11 (c :: cs) 0 = true
    · rw [searchRun11, if_pos h0] at h
      cases h
      exact h0
    · rw [searchRun11, if_neg h0] at h
      cases hcs : searchRun11 cs with
      | none => rw [hcs] at h; simp at h
      | some j =>
        rw [hcs] at h
        simp only [Option.map_some', Option.some.injEq] at h
        subst h
        rw [win11_cons]
        exact ih j hcs

theorem searchRun11_complete :
    ∀ (s : List Char) (i : Nat), win11 s i = true →
      (∀ j, j < i → win11 s j = false) → searchRun11 s = some i := by
  intro s
  induction s with
  | nil =>
    intro i hw _
    simp [win11] at hw
  | cons c cs ih =>
    intro i hw hmin
    cases i with
    | zero => rw [searchRun11, if_pos hw]
    | succ j =>
      have h0 : win11 (c :: cs) 0 = false := hmin 0 (Nat.succ_pos j)
      rw [searchRun11, if_neg (by simp [h0])]
      have hw' : win11 cs j = true := by rw [← win11_cons c]; exact hw
      have hmin' : ∀ j', j' < j → win11 cs j' = false := by
        intro j' hj'
        rw [← win11_cons c]
        exact hmin (j' + 1) (Nat.succ_lt_succ hj')
      rw [ih j hw' hmin']
      rfl

theorem win11_spec (s : List Char) (i : Nat) (h : win11 s i = true) :
    i + 11 ≤ s.length ∧ ∀ c ∈ (s.drop i).take 11, c.isDigit = true := by
  unfold win11 at h
  rw [Bool.and_eq_true] at h
  obtain ⟨hlen, hall⟩ := h
  rw [decide_eq_true_eq] at hlen
  rw [List.all_eq_true] at hall
  exact ⟨hlen, hall⟩

theorem win11_exists_digit (s : List Char) (i : Nat) (h : win11 s i = true) :
    ∃ c ∈ s, c.isDigit = true := by
  obtain ⟨hlen, hall⟩ := win11_spec s i h
  have hne : ((s.drop i).take 11) ≠ [] := by
    have hl : ((s.drop i).take 11).length = 11 := by
      rw [List.length_take, List.length_drop]
      omega
    intro hnil
    rw [hnil] at hl
    simp at hl
  obtain ⟨c, hc⟩ := List.exists_mem_of_ne_nil _ hne
  exact ⟨c, List.drop_subset i s (List.take_subset 11 _ hc), hall c hc⟩

theorem searchRun11_none_of_noDigit (s : List Char)
    (h : ∀ c ∈ s, c.isDigit = false) : searchRun11 s = none := by
  cases hs : searchRun11 s with
  | none => rfl
  | some i =>
    obtain ⟨c, hc, hd⟩ := win11_exists_digit s i (searchRun11_sound s i hs)
    rw [h c hc] at hd
    exact absurd hd (by simp)

theorem starDigits_noDigit (s : List Char) :
    ∀ c ∈ starDigits s, c.isDigit = false := by
  intro c hc
  rw [starDigits, List.mem_map] at hc
  obtain ⟨a, _, ha⟩ := hc
  subst ha
  by_cases hd : a.isDigit = true
  · rw [if_pos hd]; decide
  · rw [if_neg hd]
    exact Bool.eq_false_iff.mpr hd

theorem starDigits_fixed (s : List Char) (h : ∀ c ∈ s, c.isDigit = false) :
    starDigits s = s := by
  unfold starDigits
  calc s.map (fun c => if c.isDigit then '*' else c) = s.map id := by
        apply List.map_congr_left
        intro a ha
        simp [h a ha]
    _ = s := List.map_id s

theorem maskPhone_none (s : List Char) (h : searchRun11 s = none) :
    maskPhone s = starDigits s := by
  rw [maskPhone, h]

theorem maskPhone_some (s : List Char) (i : Nat) (h : searchRun11 s = some i) :
    maskPhone s =
      s.take i ++
        (((s.drop i).take 11).take 3 ++ fourStars ++ ((s.drop i).take 11).drop 7) ++
        s.drop (i + 11) := by
  rw [maskPhone, h]

/-
Helper lemmas about zipped character lists, used for the
position-preservation property of the phone mask.
-/

theorem zip_self_eq (l : List Char) :
    ∀ p ∈ l.zip l, (p : Char × Char).2 = p.1 := by
  induction l with
  | nil => intro p hp; simp at hp
  | cons a l ih =>
    intro p hp
    rw [List.zip_cons_cons] at hp
    rcases List.mem_cons.mp hp with h | h
    · subst h; rfl
    · exact ih p h

theorem zip_map_snd (f : Char → Char) (l : List Char) :
    ∀ p ∈ l.zip (l.map f), (p : Char × Char).2 = f p.1 := by
  induction l with
  | nil => intro p hp; simp at hp
  | cons a l ih =>
    intro p hp
    rw [List.map_cons, List.zip_cons_cons] at hp
    rcases List.mem_cons.mp hp with h | h
    · subst h; rfl
    · exact ih p h

theorem zip_splice (pre mid mid' post : List Char)
    (hlen : mid.length = mid'.length)
    (hmid : ∀ c ∈ mid, c.isDigit = true) :
    ∀ p ∈ (pre ++ mid ++ post).zip (pre ++ mid' ++ post),
      (p : Char × Char).1.isDigit = false → p.2 = p.1 := by
  intro p hp hd
  rw [List.append_assoc, List.append_assoc, List.zip_append rfl] at hp
  rcases List.mem_append.mp hp with h | h
  · exact zip_self_eq pre p h
  · rw [List.zip_append hlen] at h
    rcases List.mem_append.mp h with h2 | h2
    · exfalso
      obtain ⟨a, b⟩ := p
      have ha : a ∈ mid := (List.of_mem_zip h2).1
      rw [hmid a ha] at hd
      exact absurd hd (by simp)
    · exact zip_self_eq post p h2

theorem window_length (s : List Char) (i : Nat) (hlen : i + 11 ≤ s.length) :
    ((s.drop i).take 11).length = 11 := by
  rw [List.length_take, List.length_drop]
  omega

theorem split_at_window (s : List Char) (i : Nat) :
    s = s.take i ++ (s.drop i).take 11 ++ s.drop (i + 11) := by
  conv_lhs => rw [← List.take_append_drop i s]
  rw [List.append_assoc]
  congr 1
  conv_lhs => rw [← List.take_append_drop 11 (s.drop i)]
  rw [List.drop_drop]

/-- Claim C10: the phone mask transform keeps the length of its input
and leaves every non-digit character unchanged at its position, the
positions being matched by zipping input and output. -/
theorem mask_phone_length_and_nondigit (s : List Char) :
    (maskPhone s).length = s.length ∧
    ∀ p ∈ s.zip (maskPhone s), (p : Char × Char).1.isDigit = false → p.2 = p.1 := by
  cases hs : searchRun11 s with
  | none =>
    have hm : maskPhone s = starDigits s := maskPhone_none s hs
    constructor
    · rw [hm, starDigits, List.length_map]
    · intro p hp hd
      rw [hm, starDigits] at hp
      have h2 := zip_map_snd (fun c => if c.isDigit then '*' else c) s p hp
      rw [h2]
      simp [hd]
  | some i =>
    have hw := searchRun11_sound s i hs
    obtain ⟨hlen, hdig⟩ := win11_spec s i hw
    have hdlen : ((s.drop i).take 11).length = 11 := window_length s i hlen
    have hmlen :
        (((s.drop i).take 11).take 3 ++ fourStars ++
          ((s.drop i).take 11).drop 7).length = 11 := by
      simp only [List.length_append, List.length_take, List.length_drop,
        fourStars, List.length_cons, List.length_nil, hdlen]
      omega
    have hm := maskPhone_some s i hs
    have hsplit := split_at_window s i
    constructor
    · rw [hm]
      conv_rhs => rw [hsplit]
      simp only [List.length_append, List.append_assoc]
      rw [hdlen]
      have : (((s.drop i).take 11).take 3).length + (fourStars.length +
          (((s.drop i).take 11).drop 7).length) = 11 := by
        simpa [List.length_append, Nat.add_assoc] using hmlen
      omega
    · intro p hp hd
      have hp' : p ∈ (s.take i ++ (s.drop i).take 11 ++ s.drop (i + 11)).zip
          (s.take i ++
            (((s.drop i).take 11).take 3 ++ fourStars ++ ((s.drop i).take 11).drop 7) ++
            s.drop (i + 11)) := by
        rw [← hsplit, ← hm]
        exact hp
      exact zip_splice (s.take i) ((s.drop i).take 11) _ (s.drop (i + 11))
        (by rw [hdlen, hmlen]) hdig p hp' hd

/-- Witness for claim C10 at the concrete input a1. -/
theorem mask_phone_length_and_nondigit_witness :
    (maskPhone ("a1".data)).length = ("a1".data).length ∧
    (('a', 'a') : Char × Char).2 = ('a', 'a').1 :=
  ⟨(mask_phone_length_and_nondigit ("a1".data)).1,
   (mask_phone_length_and_nondigit ("a1".data)).2 ('a', 'a') (by decide) (by decide)⟩

/-- Claim C1 (amended): the phone mask transform searches for the
leftmost position at which eleven consecutive digits start, even
inside a longer digit run; when such a position exists the eleven
digits there are replaced by their first three, four stars, and their
last four, with the text before and after that window preserved
verbatim. -/
theorem mask_phone_leftmost_eleven (s : List Char) (i : Nat)
    (hwin : win11 s i = true) (hmin : ∀ j, j < i → win11 s j = false) :
    maskPhone s =
      s.take i ++ ((s.drop i).take 11).take 3 ++ fourStars ++
        ((s.drop i).take 11).drop 7 ++ s.drop (i + 11) := by
  rw [maskPhone_some s i (searchRun11_complete s i hwin hmin)]
  simp [List.append_assoc]

/-- Witness for claim C1 at a concrete input with leading text. -/
theorem mask_phone_leftmost_eleven_witness :
    maskPhone ("ab13812345678cd".data) =
      ("ab13812345678cd".data).take 2 ++
        ((("ab13812345678cd".data).drop 2).take 11).take 3 ++ fourStars ++
        ((("ab13812345678cd".data).drop 2).take 11).drop 7 ++
        ("ab13812345678cd".data).drop (2 + 11) :=
  mask_phone_leftmost_eleven ("ab13812345678cd".data) 2 (by decide) (by decide)

/-- Counterexample for claim C1 as stated: the input of twelve
consecutive digits holds no maximal run of exactly eleven digits, yet
the transform still masks the first eleven of them instead of falling
back to starring every digit. -/
theorem mask_phone_twelve_digit_run_cex :
    hasMaximalRun11 ("123456789012".data) = false ∧
    maskPhone ("123456789012".data) = "123****89012".data ∧
    maskPhone ("123456789012".data) ≠ starDigits ("123456789012".data) := by
  decide

/-
Helper lemmas about the id search.
-/

theorem searchId_sound :
    ∀ (s : List Char) (i len : Nat), searchId s = some (i, len) →
      (len = 18 ∧ match18 (s.drop i) = true) ∨
      (len = 15 ∧ match15 (s.drop i) = true) := by
  intro s
  induction s with
  | nil => intro i len h; simp [searchId] at h
  | cons c cs ih =>
    intro i len h
    by_cases h18 : match18 (c :: cs) = true
    · rw [searchId, if_pos h18] at h
      simp only [Option.some.injEq, Prod.mk.injEq] at h
      obtain ⟨hi, hlen⟩ := h
      subst hi; subst hlen
      exact Or.inl ⟨rfl, h18⟩
    · rw [searchId, if_neg h18] at h
      by_cases h15 : match15 (c :: cs) = true
      · rw [if_pos h15] at h
        simp only [Option.some.injEq, Prod.mk.injEq] at h
        obtain ⟨hi, hlen⟩ := h
        subst hi; subst hlen
        exact Or.inr ⟨rfl, h15⟩
      · rw [if_neg h15] at h
        cases hcs : searchId cs with
        | none => rw [hcs] at h; simp at h
        | some p =>
          rw [hcs] at h
          simp only [Option.map_some', Option.some.injEq] at h
          obtain ⟨i', len'⟩ := p
          simp only [Prod.mk.injEq] at h
          obtain ⟨hi, hlen⟩ := h
          subst hi; subst hlen
          rw [List.drop_succ_cons]
          exact ih i' len' hcs

theorem match18_length (t : List Char) (h : match18 t = true) :
    18 ≤ t.length := by
  unfold match18 at h
  rw [Bool.and_eq_true] at h
  obtain ⟨-, hchk⟩ := h
  cases hd : t.drop 17 with
  | nil => rw [hd] at hchk; simp at hchk
  | cons ch rest =>
    have hl := congrArg List.length hd
    rw [List.length_drop, List.length_cons] at hl
    omega

theorem match15_length (t : List Char) (h : match15 t = true) :
    15 ≤ t.length := by
  unfold match15 at h
  rw [Bool.and_eq_true] at h
  obtain ⟨hlen, -⟩ := h
  exact of_decide_eq_true hlen

theorem digit_word (c : Char) (h : c.isDigit = true) : isWordChar c = true := by
  simp [isWordChar, h]

theorem check_word (c : Char) (h : isIdCheckChar c = true) : isWordChar c = true := by
  unfold isIdCheckChar at h
  unfold isWordChar
  rw [Bool.or_eq_true, Bool.or_eq_true] at h
  rcases h with (h1 | h1) | h1
  · simp [h1]
  · rw [decide_eq_true_eq] at h1
    subst h1
    decide
  · rw [decide_eq_true_eq] at h1
    subst h1
    decide

theorem match18_fullmatch (t : List Char) (h : match18 t = true) :
    fullmatch18 (t.take 18) = true := by
  have hlen := match18_length t h
  unfold match18 at h
  rw [Bool.and_eq_true] at h
  obtain ⟨hdig, hchk⟩ := h
  rw [List.all_eq_true] at hdig
  cases hd : t.drop 17 with
  | nil => rw [hd] at hchk; simp at hchk
  | cons ch rest =>
    rw [hd] at hchk
    have h17len : (t.take 17).length = 17 := by
      rw [List.length_take]; omega
    have htake : t.take 18 = t.take 17 ++ [ch] := by
      conv_lhs => rw [← List.take_append_drop 17 t, hd]
      rw [List.take_append_eq_append_take, h17len]
      simp [List.take_take]
    rw [htake]
    unfold fullmatch18
    rw [Bool.and_eq_true, Bool.and_eq_true]
    refine ⟨⟨?_, ?_⟩, ?_⟩
    · rw [decide_eq_true_eq, List.length_append, h17len]
      rfl
    · rw [List.take_append_of_le_length (by omega), List.all_eq_true]
      intro c hc
      exact hdig c (List.take_subset 14 _ hc)
    · rw [List.drop_append_of_le_length (by omega), List.all_eq_true]
      intro c hc
      rcases List.mem_append.mp hc with h1 | h1
      · exact digit_word c (hdig c (List.drop_subset 14 _ h1))
      · rw [List.mem_singleton] at h1
        subst h1
        exact check_word c hchk

theorem searchId_none_short :
    ∀ (s : List Char), s.length < 15 → searchId s = none := by
  intro s
  induction s with
  | nil => intro _; rfl
  | cons c cs ih =>
    intro hlen
    have h18 : ¬ match18 (c :: cs) = true := by
      intro h
      have := match18_length _ h
      omega
    have h15 : ¬ match15 (c :: cs) = true := by
      intro h
      have := match15_length _ h
      omega
    rw [searchId, if_neg h18, if_neg h15]
    rw [ih (by simp at hlen ⊢; omega)]
    rfl

theorem starAlnum_noAlnum (s : List Char) :
    ∀ c ∈ starAlnum s, isAlnumChar c = false := by
  intro c hc
  rw [starAlnum, List.mem_map] at hc
  obtain ⟨a, _, ha⟩ := hc
  subst ha
  by_cases hd : isAlnumChar a = true
  · rw [if_pos hd]; decide
  · rw [if_neg hd]
    exact Bool.eq_false_iff.mpr hd

theorem starAlnum_fixed (s : List Char) (h : ∀ c ∈ s, isAlnumChar c = false) :
    starAlnum s = s := by
  unfold starAlnum
  calc s.map (fun c => if isAlnumChar c then '*' else c) = s.map id := by
        apply List.map_congr_left
        intro a ha
        simp [h a ha]
    _ = s := List.map_id s

theorem digit_alnum (c : Char) (h : c.isDigit = true) : isAlnumChar c = true := by
  simp [isAlnumChar, h]

theorem match18_digit (t : List Char) (h : match18 t = true) :
    ∃ c ∈ t, c.isDigit = true := by
  have hlen := match18_length t h
  unfold match18 at h
  rw [Bool.and_eq_true] at h
  obtain ⟨hdig, -⟩ := h
  rw [List.all_eq_true] at hdig
  have hne : t.take 17 ≠ [] := by
    have : (t.take 17).length = 17 := by rw [List.length_take]; omega
    intro hnil; rw [hnil] at this; simp at this
  obtain ⟨c, hc⟩ := List.exists_mem_of_ne_nil _ hne
  exact ⟨c, List.take_subset 17 t hc, hdig c hc⟩

theorem match15_digit (t : List Char) (h : match15 t = true) :
    ∃ c ∈ t, c.isDigit = true := by
  have hlen := match15_length t h
  unfold match15 at h
  rw [Bool.and_eq_true] at h
  obtain ⟨-, hdig⟩ := h
  rw [List.all_eq_true] at hdig
  have hne : t.take 15 ≠ [] := by
    have : (t.take 15).length = 15 := by rw [List.length_take]; omega
    intro hnil; rw [hnil] at this; simp at this
  obtain ⟨c, hc⟩ := List.exists_mem_of_ne_nil _ hne
  exact ⟨c, List.take_subset 15 t hc, hdig c hc⟩

theorem searchId_none_of_noAlnum (s : List Char)
    (h : ∀ c ∈ s, isAlnumChar c = false) : searchId s = none := by
  cases hs : searchId s with
  | none => rfl
  | some p =>
    exfalso
    obtain ⟨i, len⟩ := p
    have hdig : ∃ c ∈ s.drop i, c.isDigit = true := by
      rcases searchId_sound s i len hs with ⟨-, h18⟩ | ⟨-, h15⟩
      · exact match18_digit _ h18
      · exact match15_digit _ h15
    obtain ⟨c, hc, hcd⟩ := hdig
    have := h c (List.drop_subset i s hc)
    rw [digit_alnum c hcd] at this
    exact absurd this (by simp)

theorem maskIdNumber_none (s : List Char) (h : searchId s = none) :
    maskIdNumber s = starAlnum s := by
  rw [maskIdNumber, h]

/-- Claim C3: when the leftmost match of the id search is the
18-character form, the matched run is replaced by its first six
digits, eight stars, and its last four characters, the surrounding
text being spliced back unchanged; in particular the example of the
spec rewrites as stated. -/
theorem mask_id_eighteen :
    (∀ (s : List Char) (i : Nat), searchId s = some (i, 18) →
      maskIdNumber s =
        s.take i ++ ((s.drop i).take 18).take 6 ++ List.replicate 8 '*' ++
          ((s.drop i).take 18).drop 14 ++ s.drop (i + 18)) ∧
    maskIdNumber ("110101199003071234".data) = "110101********1234".data := by
  constructor
  · intro s i h
    have h18 : match18 (s.drop i) = true := by
      rcases searchId_sound s i 18 h with ⟨-, h18⟩ | ⟨hlen, -⟩
      · exact h18
      · exact absurd hlen (by decide)
    have hfull : fullmatch18 ((s.drop i).take 18) = true := match18_fullmatch _ h18
    rw [maskIdNumber, h]
    simp only [hfull, if_true]
    simp [List.append_assoc]
  · decide

/-- Witness for claim C3 at a concrete input with surrounding text. -/
theorem mask_id_eighteen_witness :
    maskIdNumber ("x110101199003071234y".data) =
      ("x110101199003071234y".data).take 1 ++
        ((("x110101199003071234y".data).drop 1).take 18).take 6 ++
        List.replicate 8 '*' ++
        ((("x110101199003071234y".data).drop 1).take 18).drop 14 ++
        ("x110101199003071234y".data).drop (1 + 18) :=
  mask_id_eighteen.1 ("x110101199003071234y".data) 1 (by decide)

/-- Claim C2: evaluation of the id mask at the 15-digit input of the
spec example; the code keeps the last four characters after the six
stars, giving a sixteen-character result, not the fifteen-character
result with the last three that the spec and the docstring of the
source state. -/
theorem mask_id_fifteen_code_behavior :
    maskIdNumber ("110101900307123".data) = "110101******7123".data ∧
    maskIdNumber ("110101900307123".data) ≠ "110101******123".data := by
  decide

/-- Claim C9 counterexample: a ten-character alphanumeric input is
fully starred by the id mask, not kept at its first three and last
two characters. -/
theorem mask_id_ten_char_cex :
    maskIdNumber ("abc1234567".data) = "**********".data ∧
    maskIdNumber ("abc1234567".data) ≠ "abc*****67".data := by
  decide

/-- Claim C9 (amended): a ten-character alphanumeric input cannot
contain a 15 or 18 match, so the id mask takes its no-match branch
and replaces every one of its characters with a star. -/
theorem mask_id_ten_char_alnum (s : List Char) (hlen : s.length = 10)
    (halnum : ∀ c ∈ s, isAlnumChar c = true) :
    maskIdNumber s = List.replicate 10 '*' := by
  have hnone : searchId s = none := searchId_none_short s (by omega)
  rw [maskIdNumber_none s hnone]
  rw [List.eq_replicate_iff]
  constructor
  · rw [starAlnum, List.length_map, hlen]
  · intro b hb
    rw [starAlnum, List.mem_map] at hb
    obtain ⟨a, ha, hab⟩ := hb
    rw [← hab]
    simp [halnum a ha]

/-- Witness for claim C9 at the concrete ten-character input. -/
theorem mask_id_ten_char_alnum_witness :
    maskIdNumber ("z9z8z7z6z5".data) = List.replicate 10 '*' :=
  mask_id_ten_char_alnum ("z9z8z7z6z5".data) (by decide) (by decide)

/-- Claim C8: a value the transforms have fully starred, which is what
happens exactly when the search finds no match, is left unchanged by a
second application of the same transform: the starred value holds no
digits, so the search fails again and the fallback changes nothing. -/
theorem mask_idempotent_on_fallback :
    (∀ s : List Char, searchRun11 s = none →
      maskPhone (maskPhone s) = maskPhone s) ∧
    (∀ s : List Char, searchId s = none →
      maskIdNumber (maskIdNumber s) = maskIdNumber s) := by
  constructor
  · intro s h
    rw [maskPhone_none s h]
    rw [maskPhone_none _ (searchRun11_none_of_noDigit _ (starDigits_noDigit s))]
    exact starDigits_fixed _ (starDigits_noDigit s)
  · intro s h
    rw [maskIdNumber_none s h]
    rw [maskIdNumber_none _ (searchId_none_of_noAlnum _ (starAlnum_noAlnum s))]
    exact starAlnum_fixed _ (starAlnum_noAlnum s)

/-- Witness for claim C8 at concrete no-match inputs. -/
theorem mask_idempotent_on_fallback_witness :
    maskPhone (maskPhone ("tel 123456".data)) = maskPhone ("tel 123456".data) ∧
    maskIdNumber (maskIdNumber ("id 1234".data)) = maskIdNumber ("id 1234".data) :=
  ⟨mask_idempotent_on_fallback.1 ("tel 123456".data) (by decide),
   mask_idempotent_on_fallback.2 ("id 1234".data) (by decide)⟩

/-
Helper lemmas about the sanitizer.
-/

theorem sanitizeEntry_some (d : Bool) (raw : Record) (a k : String)
    (vs : List String) (h : sanitizeEntry d raw a = some (k, vs)) :
    a = k ∧ vs ≠ [] ∧ vs.length = (dget raw k).length ∧
      (k ≠ "phone_numbers" → k ≠ "id_numbers" → vs = dget raw k) := by
  unfold sanitizeEntry at h
  by_cases hemp : dget raw a = []
  · rw [if_pos hemp] at h
    simp at h
  · rw [if_neg hemp] at h
    by_cases hp : a = "phone_numbers" ∧ d
    · rw [if_pos hp] at h
      simp only [Option.some.injEq, Prod.mk.injEq] at h
      obtain ⟨hk, hv⟩ := h
      subst hk
      refine ⟨rfl, ?_, ?_, ?_⟩
      · rw [← hv]
        simp [List.map_eq_nil_iff, hemp]
      · rw [← hv, List.length_map]
      · intro hk1 _
        exact absurd hp.1 hk1
    · rw [if_neg hp] at h
      by_cases hi : a = "id_numbers" ∧ d
      · rw [if_pos hi] at h
        simp only [Option.some.injEq, Prod.mk.injEq] at h
        obtain ⟨hk, hv⟩ := h
        subst hk
        refine ⟨rfl, ?_, ?_, ?_⟩
        · rw [← hv]
          simp [List.map_eq_nil_iff, hemp]
        · rw [← hv, List.length_map]
        · intro _ hk2
          exact absurd hi.1 hk2
      · rw [if_neg hi] at h
        simp only [Option.some.injEq, Prod.mk.injEq] at h
        obtain ⟨hk, hv⟩ := h
        subst hk
        exact ⟨rfl, hv ▸ hemp, by rw [← hv], fun _ _ => hv.symm⟩

theorem sanitize_mem (d : Bool) (raw : Record) (k : String) (vs : List String)
    (h : (k, vs) ∈ sanitize d raw) :
    k ∈ DEFAULT_FIELD_ORDER ∧ vs ≠ [] ∧ vs.length = (dget raw k).length ∧
      (k ≠ "phone_numbers" → k ≠ "id_numbers" → vs = dget raw k) := by
  rw [sanitize, List.mem_filterMap] at h
  obtain ⟨a, ha, hsome⟩ := h
  obtain ⟨hak, h2, h3, h4⟩ := sanitizeEntry_some d raw a k vs hsome
  subst hak
  exact ⟨ha, h2, h3, h4⟩

/-- Claim C4 (amended): the sanitizer only filters and substitutes per
value: every retained key keeps as many values as the raw record held
under it, no retained value list is empty, keys other than the two
masked ones keep their raw values, and with the masking flag off the
result is exactly the raw record restricted to the canonical field
order with empty or absent keys removed; a key outside the canonical
order, such as the extra key of the remote service, is dropped even
when non-empty. -/
theorem sanitize_structure (d : Bool) (raw : Record) :
    (∀ k vs, (k, vs) ∈ sanitize d raw →
      vs ≠ [] ∧ vs.length = (dget raw k).length ∧
        (k ≠ "phone_numbers" → k ≠ "id_numbers" → vs = dget raw k)) ∧
    sanitize false raw = filteredCanonical raw := by
  constructor
  · intro k vs h
    obtain ⟨-, h2, h3, h4⟩ := sanitize_mem d raw k vs h
    exact ⟨h2, h3, h4⟩
  · rw [sanitize, filteredCanonical]
    apply List.filterMap_congr
    intro k _
    unfold sanitizeEntry
    by_cases hemp : dget raw k = []
    · rw [if_pos hemp, if_pos hemp]
    · rw [if_neg hemp, if_neg hemp,
        if_neg (by simp : ¬ (k = "phone_numbers" ∧ (false : Bool))),
        if_neg (by simp : ¬ (k = "id_numbers" ∧ (false : Bool)))]

/-- Witness for claim C4 at a concrete one-key record. -/
theorem sanitize_structure_witness :
    ((["A"] : List String) ≠ [] ∧
      (["A"] : List String).length = (dget [("names", ["A"])] "names").length ∧
      ("names" ≠ "phone_numbers" → "names" ≠ "id_numbers" →
        (["A"] : List String) = dget [("names", ["A"])] "names")) ∧
    sanitize false [("names", ["A"])] = filteredCanonical [("names", ["A"])] :=
  ⟨(sanitize_structure false [("names", ["A"])]).1 "names" ["A"] (by decide),
   (sanitize_structure false [("names", ["A"])]).2⟩

/-- Claim C4 counterexample: a raw record whose only key is the
non-empty extra key is sanitized to the empty record, although the
claim as stated would keep that key, it being neither empty nor
absent. -/
theorem sanitize_drops_unlisted_key_cex :
    sanitize false [("qq_numbers", ["12345"])] = [] ∧
    filteredRaw [("qq_numbers", ["12345"])] = [("qq_numbers", ["12345"])] := by
  exact ⟨rfl, rfl⟩

/-- Claim C5: over the outcome model of one HTTP round trip, fetch is
a total function, so no exception escapes it; it returns none on a
transport exception, on every non-200 status, on an unparsable body,
and on a missing or empty data field, and whenever it returns a
record every field of that record carries a non-empty value list. -/
theorem fetch_never_raises (d : Bool) :
    fetch d HttpOutcome.transportError = none ∧
    (∀ (st : Nat) (body : BodyOutcome), st ≠ 200 →
      fetch d (HttpOutcome.response st body) = none) ∧
    (∀ st : Nat, fetch d (HttpOutcome.response st BodyOutcome.parseError) = none) ∧
    (∀ st : Nat, fetch d (HttpOutcome.response st (BodyOutcome.parsed none)) = none) ∧
    (∀ st : Nat,
      fetch d (HttpOutcome.response st (BodyOutcome.parsed (some ([] : Record)))) = none) ∧
    (∀ (r : HttpOutcome) (res : Record), fetch d r = some res →
      ∀ p ∈ res, p.2 ≠ ([] : List String)) := by
  refine ⟨rfl, ?_, ?_, ?_, ?_, ?_⟩
  · intro st body h
    simp [fetch, requestResult, h]
  · intro st
    by_cases h : st = 200 <;> simp [fetch, requestResult, h]
  · intro st
    by_cases h : st = 200 <;> simp [fetch, requestResult, h]
  · intro st
    by_cases h : st = 200 <;> simp [fetch, requestResult, h]
  · intro r res h p hp
    cases hr : requestResult r with
    | none => simp [fetch, hr] at h
    | some raw =>
      simp only [fetch, hr, Option.some.injEq] at h
      subst h
      obtain ⟨k, vs⟩ := p
      exact (sanitize_mem d raw k vs hp).2.1

/-- Witness for claim C5 at concrete outcomes. -/
theorem fetch_never_raises_witness :
    fetch true (HttpOutcome.response 404 BodyOutcome.parseError) = none ∧
    ("names", (["A"] : List String)).2 ≠ ([] : List String) :=
  ⟨(fetch_never_raises true).2.1 404 BodyOutcome.parseError (by decide),
   (fetch_never_raises true).2.2.2.2.2
     (HttpOutcome.response 200 (BodyOutcome.parsed (some [("names", ["A"])])))
     [("names", ["A"])] (by decide) ("names", ["A"]) (by decide)⟩

/-- Claim C6 (amended): a raw record whose only non-empty key is the
extra key qq_numbers sanitizes to the empty record, since that key
does not appear in the canonical field order, and the formatter then
returns no lines; the sanitized record is empty, not a non-empty
record retaining the key. -/
theorem qq_only_record (d : Bool) (raw : Record)
    (h : ∀ k, k ≠ "qq_numbers" → dget raw k = []) :
    sanitize d raw = [] ∧ format_display (sanitize d raw) = [] := by
  have hs : sanitize d raw = [] := by
    rw [sanitize, List.filterMap_eq_nil_iff]
    intro k hk
    have hne : k ≠ "qq_numbers" := by
      rw [DEFAULT_FIELD_ORDER, FIELD_LABELS] at hk
      simp at hk
      rcases hk with rfl | rfl | rfl | rfl | rfl | rfl | rfl | rfl <;> decide
    unfold sanitizeEntry
    rw [if_pos (h k hne)]
  exact ⟨hs, by rw [hs]; rfl⟩

/-- Witness for claim C6 at the concrete qq-only record. -/
theorem qq_only_record_witness :
    sanitize false [("qq_numbers", ["10086"])] = [] ∧
    format_display (sanitize false [("qq_numbers", ["10086"])]) = [] :=
  qq_only_record false [("qq_numbers", ["10086"])] (by
    intro k hk
    rw [show dget [("qq_numbers", ["10086"])] k =
        if "qq_numbers" = k then ["10086"] else dget [] k from rfl]
    rw [if_neg (fun e => hk e.symm)]
    rfl)

/-- Claim C6 counterexample: the sanitizer maps a record holding only
the non-empty extra key to the empty record, not to a non-empty one. -/
theorem qq_only_sanitize_empty_cex :
    sanitize true [("qq_numbers", ["10001", "10002"])] = [] ∧
    format_display (sanitize true [("qq_numbers", ["10001", "10002"])]) = [] :=
  ⟨rfl, rfl⟩

/-- Claim C7: the formatter walks the keys in canonical order and, for
each key present with a non-empty value list and a registered label,
emits exactly one line of the label, the fullwidth colon, and the
values joined with the bar separator; on the two-field example record
it returns exactly the two stated lines in that order. -/
theorem format_display_canonical :
    (∀ data : Record, format_display data = formatDisplaySpec data) ∧
    format_display [("names", ["张三"]), ("phone_numbers", ["138****5678"])] =
      ["姓名：张三", "号码：138****5678"] := by
  constructor
  · intro data
    rw [format_display, formatDisplaySpec]
    apply List.filterMap_congr
    intro k _
    cases hl : labelOf k <;> by_cases h : dget data k = [] <;> simp [hl, h]
  · rfl

end Box
